import Mathlib

/-!
# Unicorn: parameter bindings and the test session

A verification development for `src/unicorn/param/param.c` and
`src/unicorn/session/session.h`.

The C heap is an explicit state: a partial map from addresses to typed blocks.
Every function that takes pointers takes the memory and returns the memory it
leaves behind; a result of `none` stands for undefined behaviour (a read or a
write through a pointer that designates no suitable block).
-/

namespace Unicorn

/-! ## Memory -/

/-- A machine address. -/
abbrev Ptr := Nat

/-- The null pointer. -/
def NULL : Ptr := 0

/-- The fields of `UnicornTestParam`, as `initialize_test_param` assigns them:
`name` is a `char *`, `values` a `void *`, `test` a `UnicornTest *`, and
`index` and `count` are unsigned sizes. No function of `param.c` computes with
them, so no arithmetic on them can wrap. -/
structure UnicornTestParam where
  name : Ptr
  index : Nat
  count : Nat
  values : Ptr
  test : Ptr
deriving DecidableEq, Repr

/-- Modelled from the spec: `UnicornCollection`, declared in `collection.h`,
which is not available. It is the spec's ordered collection, "a generic
append-ordered container supporting insertion, counted random access by index,
and forward iteration", kept as the sequence of its item values in insertion
order. -/
abbrev UnicornCollection := List Ptr

/-- What an address can hold.

* `param`: a `UnicornTestParam` structure;
* `chars`: a character array holding the given bytes followed by a
  terminating NUL;
* `collection`: a `UnicornCollection`;
* `object`: storage this module never looks into (an array of parameter
  values, a `UnicornTest`), as a sequence of cells. -/
inductive Block where
  | param (p : UnicornTestParam)
  | chars (bytes : List Nat)
  | collection (items : UnicornCollection)
  | object (cells : List Nat)
deriving DecidableEq, Repr

/-- The state of the process: the heap and the global variable
`_unicorn_current_params` of `param.c`. -/
structure Memory where
  heap : Ptr → Option Block
  current_params : Ptr

/-- The memory at program start: nothing allocated,
`_unicorn_current_params = NULL`. -/
def Memory.initial : Memory :=
  { heap := fun _ => none, current_params := NULL }

/-- Store a block at an address. -/
def Memory.store (m : Memory) (a : Ptr) (b : Block) : Memory :=
  { m with heap := fun x => if x = a then some b else m.heap x }

/-- The library function `free`: `free(NULL)` does nothing, freeing a live block
removes it, anything else is undefined. -/
def free (m : Memory) (p : Ptr) : Option Memory :=
  if p = NULL then some m
  else
    match m.heap p with
    | none => none
    | some _ => some { m with heap := fun x => if x = p then none else m.heap x }

/-! ## C strings -/

/-- The string a character array denotes: its bytes up to the first NUL. -/
def c_str (s : List Nat) : List Nat :=
  s.takeWhile (fun c => c != 0)

/-- The library function `strcmp` on the contents of two character arrays: the
difference of the first pair of bytes that differ, 0 when both strings end
together. Running off the end of a list reads the terminating NUL. -/
def strcmp_bytes : List Nat → List Nat → Int
  | [], [] => 0
  | [], c2 :: _ => 0 - (c2 : Int)
  | c1 :: _, [] => (c1 : Int)
  | c1 :: s1, c2 :: s2 =>
    if c1 ≠ c2 then (c1 : Int) - (c2 : Int)
    else if c1 = 0 then 0
    else strcmp_bytes s1 s2

/-- The call `strcmp(s1, s2)` on two pointers: both must designate character
arrays. -/
def strcmp (m : Memory) (s1 s2 : Ptr) : Option Int :=
  match m.heap s1, m.heap s2 with
  | some (Block.chars b1), some (Block.chars b2) => some (strcmp_bytes b1 b2)
  | _, _ => none

/-- The bytes of an ASCII literal. -/
def ascii (s : String) : List Nat :=
  s.toList.map Char.toNat

/-! ## param.c -/

/-- The function `initialize_test_param`: five assignments through
`test_param`, which must designate storage for a `UnicornTestParam` (a write
through `NULL` is undefined). -/
def initialize_test_param (m : Memory) (test_param : Ptr) (name : Ptr) (values : Ptr)
    (count : Nat) (test : Ptr) : Option Memory :=
  if test_param = NULL then none
  else
    some (m.store test_param
      (Block.param { name := name, index := 0, count := count, values := values, test := test }))

/-- The function `unicorn_new_test_param`. The argument `alloc` is what
`malloc (sizeof (UnicornTestParam))` returned: `NULL` when the allocation
failed, the address of the new block otherwise. The result of `malloc` is not
checked before `initialize_test_param` writes through it. -/
def unicorn_new_test_param (m : Memory) (alloc : Ptr) (name : Ptr) (values : Ptr)
    (count : Nat) (test : Ptr) : Option (Ptr × Memory) :=
  match initialize_test_param m alloc name values count test with
  | none => none
  | some m1 => some (alloc, m1)

/-- Modelled from the spec: the macro `UNICORN_EACH (item_variable, collection)`,
defined in `collection.h`, which is not available. It is the spec's
"iterate-in-insertion-order producing each item exactly once": the result is
the sequence of values the loop variable takes, one per turn. -/
def UNICORN_EACH (collection : UnicornCollection) : List Ptr :=
  collection

/-- The body of `unicorn_get_test_param` from the loop on: one turn for each
value `UNICORN_EACH` gives to `test_param`, with the `return` inside the loop,
and the final `return NULL`. -/
def unicorn_get_test_param_loop (m : Memory) (param_name : Ptr) :
    List Ptr → Option (Ptr × Memory)
  | [] => some (NULL, m)
  | test_param :: rest =>
    match m.heap test_param with
    | some (Block.param tp) =>
      match strcmp m tp.name param_name with
      | some r =>
        if r = 0 then some (test_param, m)
        else unicorn_get_test_param_loop m param_name rest
      | none => none
    | _ => none

/-- The function `unicorn_get_test_param`. -/
def unicorn_get_test_param (m : Memory) (params : Ptr) (param_name : Ptr) :
    Option (Ptr × Memory) :=
  match m.heap params with
  | some (Block.collection items) =>
    unicorn_get_test_param_loop m param_name (UNICORN_EACH items)
  | _ => none

/-- The function `unicorn_free_test_param`: one call of `free`. -/
def unicorn_free_test_param (m : Memory) (test_param : Ptr) : Option Memory :=
  free m test_param

/-- Modelled from the spec: the collection's `insert(item)`, defined with
`UnicornCollection` in code that is not available; the collection is
"append-ordered", so the item goes after all the items already there. -/
def unicorn_collection_insert (m : Memory) (collection : Ptr) (item : Ptr) : Option Memory :=
  match m.heap collection with
  | some (Block.collection items) => some (m.store collection (Block.collection (items ++ [item])))
  | _ => none

/-- The name of the binding at an address, as a string: `none` when the address
holds no binding or the binding's `name` designates no character array. -/
def binding_name (m : Memory) (p : Ptr) : Option (List Nat) :=
  match m.heap p with
  | some (Block.param tp) =>
    match m.heap tp.name with
    | some (Block.chars b) => some (c_str b)
    | _ => none
  | _ => none

/-! ## session.h

The header `session.h` declares the two structures and the session functions;
the bodies of the functions are modelled from the spec's sections 4.2 and
4.3. -/

/-- The size of the `string` field of `UnicornSessionOutputState`
(`char string[50]`). -/
def OUTPUT_CAPACITY : Nat := 50

/-- The structure `UnicornSessionOutputState`: two `int` fields and an array of
50 characters. -/
structure UnicornSessionOutputState where
  index : Int
  length : Int
  string : Fin OUTPUT_CAPACITY → Nat

/-- Modelled from the spec: one character written into the "fixed-capacity
character storage", the `string` array of `session.h`; a write outside the
array is undefined. -/
def string_write (string : Fin OUTPUT_CAPACITY → Nat) (i : Int) (c : Nat) :
    Option (Fin OUTPUT_CAPACITY → Nat) :=
  if h : 0 ≤ i ∧ i < (OUTPUT_CAPACITY : Int) then
    some (Function.update string ⟨i.toNat, by unfold OUTPUT_CAPACITY at *; omega⟩ c)
  else none

/-- Modelled from the spec: the copy of `Append(text)`, character by character,
into the `string` array from offset `i` on. -/
def string_copy (string : Fin OUTPUT_CAPACITY → Nat) (i : Int) :
    List Nat → Option (Fin OUTPUT_CAPACITY → Nat)
  | [] => some string
  | c :: rest =>
    match string_write string i c with
    | none => none
    | some string1 => string_copy string1 (i + 1) rest

/-- Modelled from the spec: `Reset()` of the output assembly state (its body is
not available), "sets `length = 0`, `writeIndex = 0`". -/
def output_state_reset (o : UnicornSessionOutputState) : UnicornSessionOutputState :=
  { o with index := 0, length := 0 }

/-- Modelled from the spec: `Append(text)` of the output assembly state (its
body is not available), "copies as many characters from `text` as fit in the
remaining capacity (`capacity - length`)", writing them at the write index, and
"advances `length`/`writeIndex` by the number of characters actually
written". -/
def output_state_append (o : UnicornSessionOutputState) (text : List Nat) :
    Option UnicornSessionOutputState :=
  let written := text.take ((OUTPUT_CAPACITY : Int) - o.length).toNat
  match string_copy o.string o.index written with
  | none => none
  | some string1 =>
    some { index := o.index + written.length, length := o.length + written.length,
           string := string1 }

/-- Modelled from the spec: `Snapshot()` of the output assembly state (its body
is not available), "the current buffer contents up to `length`". -/
def output_state_snapshot (o : UnicornSessionOutputState) : List Nat :=
  ((List.finRange OUTPUT_CAPACITY).map o.string).take o.length.toNat

/-- Several calls of `Append`, one text after the other. -/
def output_state_append_all (o : UnicornSessionOutputState) :
    List (List Nat) → Option UnicornSessionOutputState
  | [] => some o
  | text :: rest =>
    match output_state_append o text with
    | none => none
    | some o1 => output_state_append_all o1 rest

/-- Modelled from the spec: the outcome of one invocation of a test,
"pass|fail". -/
inductive Outcome where
  | pass
  | fail
deriving DecidableEq, Repr

/-- Modelled from the spec: the external test capability
"`invoke(optionalParameterValue) → {outcome: pass|fail, message: optional
string}`" (`UnicornTest` is declared in `types.h`, which is not available): the
test's address, its display name and what an invocation yields. -/
structure UnicornTest where
  ref : Ptr
  name : List Nat
  invoke : Option Nat → Outcome × Option (List Nat)

/-- Modelled from the spec: the outcome record "{test reference, outcome kind,
message, formatted line}", together with the parameter index the record is
tagged with (none for a plain test). -/
structure OutcomeRecord where
  test : Ptr
  outcome : Outcome
  message : Option (List Nat)
  line : List Nat
  param_index : Option Nat
deriving DecidableEq, Repr

/-- The structure `struct timeval` of `sys/time.h`. -/
structure timeval where
  tv_sec : Int
  tv_usec : Int
deriving DecidableEq, Repr

/-- The structure `UnicornTestSession`: the two collections are kept as the
sequences of their records, and a time stamp is `none` until it is taken. -/
structure UnicornTestSession where
  results : List OutcomeRecord
  failures : List OutcomeRecord
  start_time : Option timeval
  end_time : Option timeval
  output_state : UnicornSessionOutputState

/-- Modelled from the spec: `unicorn_new_test_session` (its body is not
available): a session in its initial state, with empty `results` and
`failures`. -/
def unicorn_new_test_session : UnicornTestSession :=
  { results := [], failures := [], start_time := none, end_time := none,
    output_state := { index := 0, length := 0, string := fun _ => 0 } }

/-- Modelled from the spec: `unicorn_test_session_start` (its body is not
available), "captures current wall-clock time into `startTime`"; the time read
from the clock is the argument `now`. -/
def unicorn_test_session_start (s : UnicornTestSession) (now : timeval) : UnicornTestSession :=
  { s with start_time := some now }

/-- Modelled from the spec: `unicorn_test_session_end` (its body is not
available), "captures current wall-clock time into `endTime`". -/
def unicorn_test_session_end (s : UnicornTestSession) (now : timeval) : UnicornTestSession :=
  { s with end_time := some now }

/-- Modelled from the spec: the text of "the resulting outcome (pass/fail)" in a
status line. -/
def outcome_text : Outcome → List Nat
  | Outcome.pass => ascii "pass"
  | Outcome.fail => ascii "fail"

/-- Modelled from the spec: the diagnostic message that goes into a status line,
the one "the Test capability returns on failure". -/
def failure_text : Outcome → Option (List Nat) → List Nat
  | Outcome.fail, some message => message
  | _, _ => []

/-- Modelled from the spec: the text of "the parameter index in the formatted
line", its decimal digits; nothing for a plain test. -/
def index_text : Option Nat → List Nat
  | none => []
  | some i => (Nat.toDigits 10 i).map Char.toNat

/-- Modelled from the spec: the outcome record of one invocation, "{test
reference, outcome kind, message, formatted line}", the line being the snapshot
of the output state. -/
def outcome_record (t : UnicornTest) (param_index : Option Nat)
    (result : Outcome × Option (List Nat)) (o : UnicornSessionOutputState) : OutcomeRecord :=
  { test := t.ref, outcome := result.1, message := result.2,
    line := output_state_snapshot o, param_index := param_index }

/-- Modelled from the spec: steps 2 and 3 of `RunTest` (the body is not
available), shared with `RunParameterizedTest`: "reset output state; append the
test's display name and the resulting outcome (pass/fail) plus any diagnostic
message", "additionally including the parameter index", then "build an outcome
record ...; append to `results`; if outcome is failure, also append to
`failures`". -/
def session_record (s : UnicornTestSession) (t : UnicornTest) (param_index : Option Nat)
    (result : Outcome × Option (List Nat)) : Option UnicornTestSession :=
  match output_state_append_all (output_state_reset s.output_state)
      [t.name, outcome_text result.1, failure_text result.1 result.2, index_text param_index] with
  | none => none
  | some o =>
    let record := outcome_record t param_index result o
    some { s with
      results := s.results ++ [record],
      failures := if result.1 = Outcome.fail then s.failures ++ [record] else s.failures,
      output_state := o }

/-- Modelled from the spec: `unicorn_test_session_run_test` (its body is not
available): "invoke the external Test capability once (no parameter binding)",
then format and record the outcome. -/
def unicorn_test_session_run_test (s : UnicornTestSession) (t : UnicornTest) :
    Option UnicornTestSession :=
  session_record s t none (t.invoke none)

/-- Modelled from the spec: the value in slot `i` of the "ordered sequence of
opaque value slots" that `values` designates; a read outside the array is
undefined. -/
def read_value (m : Memory) (values : Ptr) (i : Nat) : Option Nat :=
  match m.heap values with
  | some (Block.object cells) => cells[i]?
  | _ => none

/-- Modelled from the spec: steps 2 and 3 of `RunParameterizedTest` (the body is
not available): at most `turns` turns of "for each value: invoke the Test
capability with that value bound as its parameter context; format and record
an outcome exactly as in `RunTest`, additionally including the parameter index
in the formatted line; advance `cursor`". The binding is read again from memory
at each turn, and the loop ends when the cursor reaches `count`. -/
def run_parameterized_test_loop (t : UnicornTest) (param : Ptr) :
    Nat → Memory → UnicornTestSession → Option (Memory × UnicornTestSession)
  | 0, m, s => some (m, s)
  | turns + 1, m, s =>
    match m.heap param with
    | some (Block.param tp) =>
      if tp.index < tp.count then
        match read_value m tp.values tp.index with
        | none => none
        | some value =>
          match session_record s t (some tp.index) (t.invoke (some value)) with
          | none => none
          | some s1 =>
            run_parameterized_test_loop t param turns
              (m.store param (Block.param { tp with index := tp.index + 1 })) s1
      else some (m, s)
    | _ => none

/-- Modelled from the spec: `unicorn_test_session_run_parameterized_test` (only
its declaration is in `session.h`): "resolve the parameter binding referenced
by `paramBindingCollectionItem`", then "iterate the binding's values from its
current `cursor` through `count - 1` in order". The collection item is given by
the address of the binding it holds. -/
def unicorn_test_session_run_parameterized_test (m : Memory) (s : UnicornTestSession)
    (t : UnicornTest) (param_item : Ptr) : Option (Memory × UnicornTestSession) :=
  match m.heap param_item with
  | some (Block.param tp) => run_parameterized_test_loop t param_item (tp.count - tp.index) m s
  | _ => none

/-- Modelled from the spec: a member of a test group, "tests/parameterized
tests": a plain test, or a parameterized test with the collection item of its
binding. -/
inductive GroupMember where
  | plain (t : UnicornTest)
  | parameterized (t : UnicornTest) (param_item : Ptr)

/-- Modelled from the spec: `UnicornTestGroup` (declared in `types.h`, not
available), "an ordered collection of tests/parameterized tests". -/
abbrev UnicornTestGroup := List GroupMember

/-- Modelled from the spec: `unicorn_test_session_run_test_group` (its body is
not available): "invokes each member ... of the group, in
the group's declared order, via `RunTest`/`RunParameterizedTest` as appropriate
per member". -/
def unicorn_test_session_run_test_group (m : Memory) (s : UnicornTestSession) :
    UnicornTestGroup → Option (Memory × UnicornTestSession)
  | [] => some (m, s)
  | GroupMember.plain t :: rest =>
    match unicorn_test_session_run_test s t with
    | none => none
    | some s1 => unicorn_test_session_run_test_group m s1 rest
  | GroupMember.parameterized t param_item :: rest =>
    match unicorn_test_session_run_parameterized_test m s t param_item with
    | none => none
    | some (m1, s1) => unicorn_test_session_run_test_group m1 s1 rest

/-- A call of one of the session functions of `session.h`. -/
inductive SessionCall where
  | start (now : timeval)
  | run_test (t : UnicornTest)
  | run_parameterized_test (t : UnicornTest) (param_item : Ptr)
  | run_test_group (g : UnicornTestGroup)
  | finish (now : timeval)

/-- The effect of one call on the memory and the session. -/
def session_call (m : Memory) (s : UnicornTestSession) :
    SessionCall → Option (Memory × UnicornTestSession)
  | SessionCall.start now => some (m, unicorn_test_session_start s now)
  | SessionCall.run_test t =>
    match unicorn_test_session_run_test s t with
    | none => none
    | some s1 => some (m, s1)
  | SessionCall.run_parameterized_test t param_item =>
    unicorn_test_session_run_parameterized_test m s t param_item
  | SessionCall.run_test_group g => unicorn_test_session_run_test_group m s g
  | SessionCall.finish now => some (m, unicorn_test_session_end s now)

/-- The effect of a sequence of calls. -/
def session_calls (m : Memory) (s : UnicornTestSession) :
    List SessionCall → Option (Memory × UnicornTestSession)
  | [] => some (m, s)
  | call :: rest =>
    match session_call m s call with
    | none => none
    | some (m1, s1) => session_calls m1 s1 rest

/-- The invariant of a binding: `0 <= cursor <= count`. -/
def binding_invariant (tp : UnicornTestParam) : Prop :=
  0 ≤ tp.index ∧ tp.index ≤ tp.count

instance (tp : UnicornTestParam) : Decidable (binding_invariant tp) := by
  unfold binding_invariant
  infer_instance

/-- A binding is exhausted when `cursor == count`. -/
def exhausted (tp : UnicornTestParam) : Prop :=
  tp.index = tp.count

instance (tp : UnicornTestParam) : Decidable (exhausted tp) := by
  unfold exhausted
  infer_instance

/-- The invariant of the output assembly state: `0 <= length <= capacity` and
`writeIndex == length`. -/
def output_state_invariant (o : UnicornSessionOutputState) : Prop :=
  o.index = o.length ∧ 0 ≤ o.length ∧ o.length ≤ (OUTPUT_CAPACITY : Int)

instance (o : UnicornSessionOutputState) : Decidable (output_state_invariant o) := by
  unfold output_state_invariant
  infer_instance

/-- The invariant of the session: every record of `failures` is a record of
`results`, and none of them is a pass. -/
def session_invariant (s : UnicornTestSession) : Prop :=
  ∀ r ∈ s.failures, r ∈ s.results ∧ r.outcome ≠ Outcome.pass

instance (s : UnicornTestSession) : Decidable (session_invariant s) := by
  unfold session_invariant
  infer_instance

/-- The combined length of several texts. -/
def combined_length (texts : List (List Nat)) : Nat :=
  (texts.map List.length).sum

/-- The test of the spec's scenario: "divide_by", which fails only on the value
0. -/
def divide_by : UnicornTest :=
  { ref := 8, name := ascii "divide_by",
    invoke := fun value =>
      if value = some 0 then (Outcome.fail, some (ascii "division by zero"))
      else (Outcome.pass, none) }

/-- The test of the spec's scenario: a plain test that fails with the message
"expected 1 got 2". -/
def failing_test : UnicornTest :=
  { ref := 8, name := ascii "plain",
    invoke := fun _ => (Outcome.fail, some (ascii "expected 1 got 2")) }

/-- The character in cell `n` of the `string` array, 0 outside the array. -/
def cell (string : Fin OUTPUT_CAPACITY → Nat) (n : Nat) : Nat :=
  if h : n < OUTPUT_CAPACITY then string ⟨n, h⟩ else 0

/-! ## Examples -/

/-- A memory for the examples: a collection at address 1 holding the bindings at
2 and 3, both named "foo" (the character arrays at 4 and 5), with their value
arrays at 6 and 7, a test at 8, and the character arrays "foo" at 9, "Foo" at
10 and "bar" at 11. -/
def example_memory : Memory :=
  { heap := fun a =>
      match a with
      | 1 => some (Block.collection [2, 3])
      | 2 => some (Block.param { name := 4, index := 0, count := 3, values := 6, test := 8 })
      | 3 => some (Block.param { name := 5, index := 0, count := 0, values := 7, test := 8 })
      | 4 => some (Block.chars (ascii "foo"))
      | 5 => some (Block.chars (ascii "foo"))
      | 6 => some (Block.object [2, 0, 5])
      | 7 => some (Block.object [])
      | 8 => some (Block.object [0])
      | 9 => some (Block.chars (ascii "foo"))
      | 10 => some (Block.chars (ascii "Foo"))
      | 11 => some (Block.chars (ascii "bar"))
      | 12 => some (Block.collection [])
      | 13 => some (Block.chars [])
      | _ => none,
    current_params := 1 }

/-- A sequence of calls for the examples: a session that runs the failing test,
then a group made of "divide_by" on the binding at address 2 (values 2, 0, 5)
and the failing test again, then an empty group. -/
def example_calls : List SessionCall :=
  [SessionCall.start { tv_sec := 10, tv_usec := 0 },
   SessionCall.run_test failing_test,
   SessionCall.run_test_group
     [GroupMember.parameterized divide_by 2, GroupMember.plain failing_test],
   SessionCall.run_test_group [],
   SessionCall.finish { tv_sec := 11, tv_usec := 500 }]

theorem strcmp_bytes_nil_left (s : List Nat) : strcmp_bytes [] s = 0 ↔ c_str s = [] := by
  cases s with
  | nil => simp [strcmp_bytes, c_str]
  | cons c s =>
    simp only [strcmp_bytes, c_str, List.takeWhile_cons]
    by_cases hc : c = 0
    · simp [hc]
    · simp [hc]

theorem strcmp_bytes_nil_right (s : List Nat) : strcmp_bytes s [] = 0 ↔ c_str s = [] := by
  cases s with
  | nil => simp [strcmp_bytes, c_str]
  | cons c s =>
    simp only [strcmp_bytes, c_str, List.takeWhile_cons]
    by_cases hc : c = 0
    · simp [hc]
    · simp [hc]

/-- The call `strcmp` returns 0 exactly when the two arrays denote the same
string. -/
theorem strcmp_bytes_eq_zero_iff (s1 s2 : List Nat) :
    strcmp_bytes s1 s2 = 0 ↔ c_str s1 = c_str s2 := by
  induction s1 generalizing s2 with
  | nil =>
    rw [strcmp_bytes_nil_left]
    constructor
    · intro h; rw [h]; rfl
    · intro h; rw [← h]; rfl
  | cons c1 s1 ih =>
    cases s2 with
    | nil =>
      rw [strcmp_bytes_nil_right]
      constructor
      · intro h; rw [h]; rfl
      · intro h; rw [h]; rfl
    | cons c2 s2 =>
      simp only [strcmp_bytes]
      by_cases hne : c1 = c2
      · subst hne
        by_cases h0 : c1 = 0
        · simp [h0, c_str]
        · have := ih s2
          simp only [c_str] at this
          simp [h0, c_str, List.takeWhile_cons, this]
      · have hne2 : (c1 : Int) - (c2 : Int) ≠ 0 := by omega
        simp only [hne, ne_eq, not_false_eq_true, if_true, hne2, false_iff]
        simp only [c_str, List.takeWhile_cons]
        by_cases h1 : c1 = 0
        · have h2 : c2 ≠ 0 := fun h => hne (h1.trans h.symm)
          simp [h1, h2]
        · by_cases h2 : c2 = 0
          · simp [h1, h2]
          · simp [h1, h2, hne]


/-! ## Facts about the lookup loop -/

theorem strcmp_of_chars {m : Memory} {a b : Ptr} {s1 s2 : List Nat}
    (h1 : m.heap a = some (Block.chars s1)) (h2 : m.heap b = some (Block.chars s2)) :
    strcmp m a b = some (strcmp_bytes s1 s2) := by
  simp [strcmp, h1, h2]

theorem strcmp_some_inv {m : Memory} {a b : Ptr} {r : Int} (h : strcmp m a b = some r) :
    ∃ s1 s2, m.heap a = some (Block.chars s1) ∧ m.heap b = some (Block.chars s2) ∧
      r = strcmp_bytes s1 s2 := by
  unfold strcmp at h
  split at h
  · rename_i b1 b2 h1 h2
    exact ⟨b1, b2, h1, h2, by simpa using h.symm⟩
  · cases h

theorem binding_name_some_inv {m : Memory} {p : Ptr} {nm : List Nat}
    (h : binding_name m p = some nm) :
    ∃ tp b, m.heap p = some (Block.param tp) ∧ m.heap tp.name = some (Block.chars b) ∧
      nm = c_str b := by
  unfold binding_name at h
  split at h
  · rename_i tp hp
    split at h
    · rename_i b hb
      exact ⟨tp, b, hp, hb, by simpa using h.symm⟩
    · cases h
  · cases h

theorem binding_name_of_heap {m : Memory} {p : Ptr} {tp : UnicornTestParam} {b : List Nat}
    (hp : m.heap p = some (Block.param tp)) (hb : m.heap tp.name = some (Block.chars b)) :
    binding_name m p = some (c_str b) := by
  simp [binding_name, hp, hb]

/-- One turn of the loop on a binding whose name can be read. -/
theorem loop_cons_of_name {m : Memory} {param_name p : Ptr} {req nm : List Nat}
    (rest : List Ptr) (hr : m.heap param_name = some (Block.chars req))
    (hp : binding_name m p = some nm) :
    unicorn_get_test_param_loop m param_name (p :: rest) =
      if nm = c_str req then some (p, m) else unicorn_get_test_param_loop m param_name rest := by
  obtain ⟨tp, b, hp1, hb, rfl⟩ := binding_name_some_inv hp
  simp only [unicorn_get_test_param_loop, hp1, strcmp_of_chars hb hr, strcmp_bytes_eq_zero_iff]

/-- The loop never changes the memory. -/
theorem loop_memory {m m1 : Memory} {param_name r : Ptr} (items : List Ptr)
    (h : unicorn_get_test_param_loop m param_name items = some (r, m1)) : m1 = m := by
  induction items with
  | nil =>
    simp only [unicorn_get_test_param_loop, Option.some.injEq, Prod.mk.injEq] at h
    exact h.2.symm
  | cons p rest ih =>
    unfold unicorn_get_test_param_loop at h
    split at h
    · split at h
      · split at h
        · simp only [Option.some.injEq, Prod.mk.injEq] at h
          exact h.2.symm
        · exact ih h
      · cases h
    · cases h

/-- The loop returns a result on a collection all of whose bindings have a
readable name. -/
theorem loop_total {m : Memory} {param_name : Ptr} {req : List Nat} (items : List Ptr)
    (hr : m.heap param_name = some (Block.chars req))
    (hv : ∀ p ∈ items, (binding_name m p).isSome) :
    ∃ r, unicorn_get_test_param_loop m param_name items = some (r, m) := by
  induction items with
  | nil => exact ⟨NULL, rfl⟩
  | cons p rest ih =>
    obtain ⟨nm, hnm⟩ := Option.isSome_iff_exists.mp (hv p (List.mem_cons_self p rest))
    rw [loop_cons_of_name rest hr hnm]
    by_cases hm : nm = c_str req
    · exact ⟨p, by simp [hm]⟩
    · simp only [hm, if_false]
      exact ih (fun q hq => hv q (List.mem_cons_of_mem p hq))

/-- The loop skips bindings with another name. -/
theorem loop_skip {m : Memory} {param_name : Ptr} {req : List Nat}
    (before rest : List Ptr) (hr : m.heap param_name = some (Block.chars req))
    (hv : ∀ q ∈ before, (binding_name m q).isSome)
    (hne : ∀ q ∈ before, binding_name m q ≠ some (c_str req)) :
    unicorn_get_test_param_loop m param_name (before ++ rest) =
      unicorn_get_test_param_loop m param_name rest := by
  induction before with
  | nil => rfl
  | cons q before ih =>
    obtain ⟨nm, hnm⟩ := Option.isSome_iff_exists.mp (hv q (List.mem_cons_self q before))
    have hq : nm ≠ c_str req := by
      intro h
      exact hne q (List.mem_cons_self q before) (by rw [hnm, h])
    rw [List.cons_append, loop_cons_of_name _ hr hnm]
    simp only [hq, if_false]
    exact ih (fun x hx => hv x (List.mem_cons_of_mem q hx))
      (fun x hx => hne x (List.mem_cons_of_mem q hx))

/-- A pointer the loop returns is an item whose name is the requested one,
unless it is the final `NULL`. -/
theorem loop_found {m m1 : Memory} {param_name r : Ptr} {req : List Nat} (items : List Ptr)
    (hr : m.heap param_name = some (Block.chars req))
    (h : unicorn_get_test_param_loop m param_name items = some (r, m1)) :
    (r ∈ items ∧ binding_name m r = some (c_str req)) ∨
      (r = NULL ∧ ∀ p ∈ items, ∃ nm, binding_name m p = some nm ∧ nm ≠ c_str req) := by
  induction items with
  | nil =>
    simp only [unicorn_get_test_param_loop, Option.some.injEq, Prod.mk.injEq] at h
    exact Or.inr ⟨h.1.symm, by simp⟩
  | cons p rest ih =>
    have h0 := h
    unfold unicorn_get_test_param_loop at h
    split at h
    · rename_i tp hp
      split at h
      · rename_i r1 hs
        obtain ⟨s1, s2, hs1, hs2, hr1⟩ := strcmp_some_inv hs
        have hreq : s2 = req := by
          rw [hr] at hs2
          simpa using hs2.symm
        subst hreq
        have hnm := binding_name_of_heap hp hs1
        split at h
        · rename_i hz
          simp only [Option.some.injEq, Prod.mk.injEq] at h
          left
          refine ⟨by rw [← h.1]; exact List.mem_cons_self p rest, ?_⟩
          rw [← h.1, hnm]
          rw [hr1, strcmp_bytes_eq_zero_iff] at hz
          rw [hz]
        · rename_i hz
          rw [hr1, strcmp_bytes_eq_zero_iff] at hz
          rcases ih h with ⟨hmem, hname⟩ | ⟨hnull, hall⟩
          · exact Or.inl ⟨List.mem_cons_of_mem p hmem, hname⟩
          · right
            refine ⟨hnull, ?_⟩
            intro q hq
            rcases List.mem_cons.mp hq with rfl | hq
            · exact ⟨c_str s1, hnm, hz⟩
            · exact hall q hq
      · cases h
    · cases h

/-- One turn of the loop. -/
theorem loop_cons_eq (m : Memory) (param_name p : Ptr) (rest : List Ptr) :
    unicorn_get_test_param_loop m param_name (p :: rest) =
      match m.heap p with
      | some (Block.param tp) =>
        match strcmp m tp.name param_name with
        | some r =>
          if r = 0 then some (p, m)
          else unicorn_get_test_param_loop m param_name rest
        | none => none
      | _ => none := rfl

/-- The loop gives the same pointer in a memory that holds the same bindings and
the same character arrays. -/
theorem loop_agree {m m1 : Memory} {param_name r : Ptr} (items : List Ptr)
    (hparam : ∀ a tp, m.heap a = some (Block.param tp) → m1.heap a = some (Block.param tp))
    (hchars : ∀ a s, m.heap a = some (Block.chars s) → m1.heap a = some (Block.chars s))
    (h : unicorn_get_test_param_loop m param_name items = some (r, m)) :
    unicorn_get_test_param_loop m1 param_name items = some (r, m1) := by
  induction items with
  | nil =>
    simp only [unicorn_get_test_param_loop, Option.some.injEq, Prod.mk.injEq] at h
    simp [unicorn_get_test_param_loop, h.1]
  | cons p rest ih =>
    unfold unicorn_get_test_param_loop at h
    split at h
    · rename_i tp hp
      split at h
      · rename_i r1 hs
        obtain ⟨s1, s2, hs1, hs2, hr1⟩ := strcmp_some_inv hs
        unfold unicorn_get_test_param_loop
        rw [hparam p tp hp]
        simp only [strcmp_of_chars (hchars _ _ hs1) (hchars _ _ hs2), ← hr1]
        split at h
        · rename_i hz
          simp only [Option.some.injEq, Prod.mk.injEq, and_true] at h
          simp [hz, h]
        · rename_i hz
          simp only [hz, if_false]
          exact ih h
      · cases h
    · cases h

/-- The loop over a collection with more items behind: the items behind are
looked at only when the loop over the first ones comes to its end. -/
theorem loop_append {m : Memory} {param_name : Ptr} (hnull : m.heap NULL = none)
    (xs ys : List Ptr) :
    unicorn_get_test_param_loop m param_name (xs ++ ys) =
      match unicorn_get_test_param_loop m param_name xs with
      | some (r, m1) =>
        if r = NULL then unicorn_get_test_param_loop m param_name ys else some (r, m1)
      | none => none := by
  induction xs with
  | nil => simp [unicorn_get_test_param_loop]
  | cons p xs ih =>
    rw [List.cons_append, loop_cons_eq, loop_cons_eq]
    cases hp : m.heap p with
    | none => rfl
    | some blk =>
      cases blk with
      | param tp =>
        have hpn : p ≠ NULL := by
          intro h
          rw [h, hnull] at hp
          cases hp
        dsimp only
        cases hs : strcmp m tp.name param_name with
        | none => rfl
        | some r1 =>
          dsimp only
          by_cases hz : r1 = 0
          · simp [hz, hpn]
          · simp only [hz, if_false]
            exact ih
      | chars s => rfl
      | collection items => rfl
      | object cells => rfl

/-- The lookup in a memory where the collection has been replaced: it is the loop
over the new items, which reads the bindings and names of the old memory. -/
theorem get_after_store_collection {m : Memory} {params param_name r : Ptr}
    {xs : List Ptr} (ys : List Ptr) (hc : m.heap params = some (Block.collection xs))
    (h : unicorn_get_test_param_loop m param_name ys = some (r, m)) :
    unicorn_get_test_param (m.store params (Block.collection ys)) params param_name =
      some (r, m.store params (Block.collection ys)) := by
  have hself : (m.store params (Block.collection ys)).heap params =
      some (Block.collection ys) := by
    simp [Memory.store]
  simp only [unicorn_get_test_param, hself, UNICORN_EACH]
  refine loop_agree ys ?_ ?_ h
  · intro a tp ha
    have hne : a ≠ params := by
      intro he
      rw [he, hc] at ha
      cases ha
    simp [Memory.store, hne, ha]
  · intro a b ha
    have hne : a ≠ params := by
      intro he
      rw [he, hc] at ha
      cases ha
    simp [Memory.store, hne, ha]

/-! ## Properties of `param.c` -/

/-- C1: when some binding of the collection has the requested name,
`unicorn_get_test_param` returns the first such binding in insertion order:
every binding inserted before the one returned has another name. -/
theorem unicorn_get_test_param_first (m : Memory) (params param_name : Ptr)
    (items : List Ptr) (req : List Nat)
    (hc : m.heap params = some (Block.collection items))
    (hr : m.heap param_name = some (Block.chars req))
    (hv : ∀ p ∈ items, (binding_name m p).isSome)
    (hex : ∃ p ∈ items, binding_name m p = some (c_str req)) :
    ∃ before found after, items = before ++ found :: after ∧
      (∀ q ∈ before, binding_name m q ≠ some (c_str req)) ∧
      binding_name m found = some (c_str req) ∧
      unicorn_get_test_param m params param_name = some (found, m) := by
  have hget : unicorn_get_test_param m params param_name =
      unicorn_get_test_param_loop m param_name items := by
    simp [unicorn_get_test_param, hc, UNICORN_EACH]
  rw [hget]
  clear hget hc
  induction items with
  | nil =>
    obtain ⟨p, hp, _⟩ := hex
    cases hp
  | cons p rest ih =>
    by_cases hm : binding_name m p = some (c_str req)
    · refine ⟨[], p, rest, rfl, by simp, hm, ?_⟩
      rw [loop_cons_of_name rest hr hm]
      simp
    · have hex1 : ∃ q ∈ rest, binding_name m q = some (c_str req) := by
        obtain ⟨q, hq, hqn⟩ := hex
        rcases List.mem_cons.mp hq with rfl | hq
        · exact absurd hqn hm
        · exact ⟨q, hq, hqn⟩
      obtain ⟨before, found, after, hsplit, hbefore, hfound, hloop⟩ :=
        ih (fun q hq => hv q (List.mem_cons_of_mem p hq)) hex1
      refine ⟨p :: before, found, after, by rw [hsplit]; rfl, ?_, hfound, ?_⟩
      · intro q hq
        rcases List.mem_cons.mp hq with rfl | hq
        · exact hm
        · exact hbefore q hq
      · obtain ⟨nm, hnm⟩ := Option.isSome_iff_exists.mp (hv p (List.mem_cons_self p rest))
        rw [loop_cons_of_name rest hr hnm]
        have hne : nm ≠ c_str req := by
          intro h
          exact hm (by rw [hnm, h])
        simp only [hne, if_false]
        exact hloop

theorem unicorn_get_test_param_first_witness :
    unicorn_get_test_param example_memory 1 9 = some (2, example_memory) := by
  obtain ⟨before, found, after, hsplit, hbefore, _, hget⟩ :=
    unicorn_get_test_param_first example_memory 1 9 [2, 3] (ascii "foo") rfl rfl
      (by
        intro p hp
        simp only [List.mem_cons, List.mem_singleton, List.not_mem_nil, or_false] at hp
        rcases hp with rfl | rfl <;> rfl)
      ⟨3, by simp, rfl⟩
  cases before with
  | nil =>
    simp only [List.nil_append, List.cons.injEq] at hsplit
    rw [hget, ← hsplit.1]
  | cons q before =>
    simp only [List.cons_append, List.cons.injEq] at hsplit
    exfalso
    apply hbefore q (List.mem_cons_self q before)
    rw [← hsplit.1]
    rfl

/-- C2: `unicorn_get_test_param` returns `NULL` exactly when no binding of the
collection has a name equal, byte for byte, to the requested one; on an empty
collection it returns `NULL` whatever the name. -/
theorem unicorn_get_test_param_null_iff (m : Memory) (params param_name : Ptr)
    (items : List Ptr) (hc : m.heap params = some (Block.collection items))
    (hnull : m.heap NULL = none) :
    (items = [] → unicorn_get_test_param m params param_name = some (NULL, m)) ∧
    (∀ req, m.heap param_name = some (Block.chars req) →
      (∀ p ∈ items, (binding_name m p).isSome) →
      ((unicorn_get_test_param m params param_name).map Prod.fst = some NULL ↔
        ∀ p ∈ items, binding_name m p ≠ some (c_str req))) := by
  have hget : unicorn_get_test_param m params param_name =
      unicorn_get_test_param_loop m param_name items := by
    simp [unicorn_get_test_param, hc, UNICORN_EACH]
  rw [hget]
  refine ⟨?_, ?_⟩
  · intro he
    rw [he]
    rfl
  · intro req hr hv
    constructor
    · intro h
      obtain ⟨⟨r, m1⟩, hloop, hfst⟩ := Option.map_eq_some'.mp h
      simp only at hfst
      subst hfst
      rcases loop_found items hr hloop with ⟨_, hname⟩ | ⟨_, hall⟩
      · simp [binding_name, hnull] at hname
      · intro p hp
        obtain ⟨nm, hnm, hne⟩ := hall p hp
        rw [hnm]
        simpa using hne
    · intro hne
      have := loop_skip items [] hr hv hne
      rw [List.append_nil] at this
      rw [this]
      rfl

theorem unicorn_get_test_param_null_iff_witness :
    (unicorn_get_test_param example_memory 1 10).map Prod.fst = some NULL ∧
    unicorn_get_test_param example_memory 12 10 = some (NULL, example_memory) :=
  ⟨((unicorn_get_test_param_null_iff example_memory 1 10 [2, 3] rfl rfl).2
      (ascii "Foo") rfl
      (by
        intro p hp
        simp only [List.mem_cons, List.mem_singleton, List.not_mem_nil, or_false] at hp
        rcases hp with rfl | rfl <;> rfl)).mpr
      (by
        intro p hp
        simp only [List.mem_cons, List.mem_singleton, List.not_mem_nil, or_false] at hp
        rcases hp with rfl | rfl <;> decide),
    (unicorn_get_test_param_null_iff example_memory 12 10 [] rfl rfl).1 rfl⟩

/-- C3: `unicorn_new_test_param` returns the address of a binding whose `index` is
0 and whose `name`, `values`, `count` and `test` are the arguments, whatever
they are (no argument is looked at), provided `malloc` gave storage; nothing
else in memory changes. -/
theorem unicorn_new_test_param_fields (m : Memory) (alloc name values : Ptr) (count : Nat)
    (test : Ptr) (halloc : alloc ≠ NULL) :
    ∃ m1, unicorn_new_test_param m alloc name values count test = some (alloc, m1) ∧
      m1.heap alloc = some (Block.param
        { name := name, index := 0, count := count, values := values, test := test }) ∧
      (∀ a, a ≠ alloc → m1.heap a = m.heap a) ∧
      m1.current_params = m.current_params := by
  refine ⟨m.store alloc (Block.param
      { name := name, index := 0, count := count, values := values, test := test }),
    by simp [unicorn_new_test_param, initialize_test_param, halloc], ?_, ?_, rfl⟩
  · simp [Memory.store]
  · intro a ha
    simp [Memory.store, ha]

theorem unicorn_new_test_param_fields_witness :
    ∃ m1, unicorn_new_test_param example_memory 20 13 NULL 0 8 = some (20, m1) ∧
      m1.heap 20 = some (Block.param
        { name := 13, index := 0, count := 0, values := NULL, test := 8 }) ∧
      (∀ a, a ≠ 20 → m1.heap a = example_memory.heap a) ∧
      m1.current_params = example_memory.current_params :=
  unicorn_new_test_param_fields example_memory 20 13 NULL 0 8 (by decide)

/-- C4: the binding `unicorn_new_test_param` creates satisfies
`0 <= index <= count` for every `count`, and is exhausted from the start when
`count` is 0; and every binding in memory that satisfies the invariant before a
call of `unicorn_get_test_param` satisfies it after the call. -/
theorem binding_invariant_new_and_get (m : Memory) :
    (∀ alloc name values count test, alloc ≠ NULL →
      ∃ m1 tp, unicorn_new_test_param m alloc name values count test = some (alloc, m1) ∧
        m1.heap alloc = some (Block.param tp) ∧ tp.count = count ∧
        binding_invariant tp ∧ (count = 0 → exhausted tp)) ∧
    (∀ params param_name r m1, unicorn_get_test_param m params param_name = some (r, m1) →
      ∀ p tp, m.heap p = some (Block.param tp) → binding_invariant tp →
        ∃ tp1, m1.heap p = some (Block.param tp1) ∧ binding_invariant tp1) := by
  refine ⟨?_, ?_⟩
  · intro alloc name values count test halloc
    refine ⟨m.store alloc (Block.param
        { name := name, index := 0, count := count, values := values, test := test }),
      { name := name, index := 0, count := count, values := values, test := test },
      by simp [unicorn_new_test_param, initialize_test_param, halloc],
      by simp [Memory.store], rfl, ⟨Nat.zero_le _, Nat.zero_le _⟩, ?_⟩
    intro h0
    simp [exhausted, h0]
  · intro params param_name r m1 hget p tp hp hinv
    have hm : m1 = m := by
      unfold unicorn_get_test_param at hget
      split at hget
      · exact loop_memory _ hget
      · cases hget
    subst hm
    exact ⟨tp, hp, hinv⟩

theorem binding_invariant_new_and_get_witness :
    (∃ m1 tp, unicorn_new_test_param example_memory 20 13 NULL 0 8 = some (20, m1) ∧
        m1.heap 20 = some (Block.param tp) ∧ tp.count = 0 ∧
        binding_invariant tp ∧ exhausted tp) ∧
    (∃ r m1, unicorn_get_test_param example_memory 1 9 = some (r, m1) ∧
      ∃ tp1, m1.heap 3 = some (Block.param tp1) ∧ binding_invariant tp1) := by
  obtain ⟨m1, tp, hnew, hheap, hcount, hinv, hex⟩ :=
    (binding_invariant_new_and_get example_memory).1 20 13 NULL 0 8 (by decide)
  exact ⟨⟨m1, tp, hnew, hheap, hcount, hinv, hex rfl⟩, 2, example_memory, by rfl,
    (binding_invariant_new_and_get example_memory).2 1 9 2 example_memory
      (by rfl) 3 { name := 5, index := 0, count := 0, values := 7, test := 8 } rfl
      (by decide)⟩

/-- C8: `unicorn_free_test_param` on a binding releases the binding's block and
nothing else: every other address holds what it held, in particular the array
`values` designates and the test `test` designates, which are objects other
than the binding. -/
theorem unicorn_free_test_param_frame (m : Memory) (p : Ptr) (tp : UnicornTestParam)
    (hp : m.heap p = some (Block.param tp)) (hpn : p ≠ NULL)
    (hvalues : tp.values ≠ p) (htest : tp.test ≠ p) :
    ∃ m1, unicorn_free_test_param m p = some m1 ∧
      m1.heap p = none ∧
      (∀ a, a ≠ p → m1.heap a = m.heap a) ∧
      m1.heap tp.values = m.heap tp.values ∧
      m1.heap tp.test = m.heap tp.test ∧
      m1.current_params = m.current_params := by
  refine ⟨{ m with heap := fun x => if x = p then none else m.heap x },
    by simp [unicorn_free_test_param, free, hpn, hp], by simp, ?_, by simp [hvalues],
    by simp [htest], rfl⟩
  intro a ha
  simp [ha]

theorem unicorn_free_test_param_frame_witness :
    ∃ m1, unicorn_free_test_param example_memory 2 = some m1 ∧
      m1.heap 2 = none ∧
      (∀ a, a ≠ 2 → m1.heap a = example_memory.heap a) ∧
      m1.heap 6 = some (Block.object [2, 0, 5]) ∧
      m1.heap 8 = some (Block.object [0]) ∧
      m1.current_params = 1 :=
  unicorn_free_test_param_frame example_memory 2
    { name := 4, index := 0, count := 3, values := 6, test := 8 } rfl (by decide)
    (by decide) (by decide)

/-- C9: `unicorn_get_test_param` leaves the memory as it found it, whatever it
returns: the global `_unicorn_current_params`, the collection, and every field
of every binding (the cursor `index` among them) are the same after the call;
and on a collection whose bindings have readable names the call does return. -/
theorem unicorn_get_test_param_read_only (m : Memory) (params param_name : Ptr) :
    (∀ r m1, unicorn_get_test_param m params param_name = some (r, m1) →
      m1 = m ∧ m1.current_params = m.current_params ∧
      m1.heap params = m.heap params ∧
      (∀ p tp, m.heap p = some (Block.param tp) → m1.heap p = some (Block.param tp))) ∧
    (∀ items req, m.heap params = some (Block.collection items) →
      m.heap param_name = some (Block.chars req) →
      (∀ p ∈ items, (binding_name m p).isSome) →
      ∃ r, unicorn_get_test_param m params param_name = some (r, m)) := by
  refine ⟨?_, ?_⟩
  · intro r m1 hget
    have hm : m1 = m := by
      unfold unicorn_get_test_param at hget
      split at hget
      · exact loop_memory _ hget
      · cases hget
    subst hm
    exact ⟨rfl, rfl, rfl, fun _ _ h => h⟩
  · intro items req hc hr hv
    simp only [unicorn_get_test_param, hc, UNICORN_EACH]
    exact loop_total items hr hv

theorem unicorn_get_test_param_read_only_witness :
    (∃ r m1, unicorn_get_test_param example_memory 1 9 = some (r, m1) ∧
      m1 = example_memory ∧ m1.current_params = 1 ∧
      m1.heap 1 = some (Block.collection [2, 3]) ∧
      m1.heap 2 = some (Block.param
        { name := 4, index := 0, count := 3, values := 6, test := 8 })) ∧
    (∃ r, unicorn_get_test_param example_memory 1 11 = some (r, example_memory)) := by
  obtain ⟨hm, hglob, hcoll, hparam⟩ :=
    (unicorn_get_test_param_read_only example_memory 1 9).1 2 example_memory (by rfl)
  exact ⟨⟨2, example_memory, by rfl, hm, hglob, hcoll, hparam 2 _ rfl⟩,
    (unicorn_get_test_param_read_only example_memory 1 11).2 [2, 3] (ascii "bar") rfl rfl
      (by
        intro p hp
        simp only [List.mem_cons, List.mem_singleton, List.not_mem_nil, or_false] at hp
        rcases hp with rfl | rfl <;> rfl)⟩

/-- C10: inserting a binding `b` at the end of a collection does not change what
a lookup finds: a binding found before is still the one returned (whatever the
name of `b`, so a duplicate inserted later never shadows it); when nothing was
found, the lookup returns `b` if the name of `b` is the requested one and
`NULL` if not. So a binding made by `unicorn_new_test_param` under the
requested name and inserted into a collection without that name is the one the
lookup returns, with `index` 0. -/
theorem unicorn_get_test_param_insert (m : Memory) (params param_name b : Ptr)
    (items : List Ptr) (req : List Nat)
    (hnull : m.heap NULL = none)
    (hc : m.heap params = some (Block.collection items))
    (hr : m.heap param_name = some (Block.chars req)) :
    ∃ m1, unicorn_collection_insert m params b = some m1 ∧
      m1.heap params = some (Block.collection (items ++ [b])) ∧
      (∀ r, r ≠ NULL → unicorn_get_test_param m params param_name = some (r, m) →
        unicorn_get_test_param m1 params param_name = some (r, m1)) ∧
      (unicorn_get_test_param m params param_name = some (NULL, m) →
        ∀ nm, binding_name m b = some nm →
          unicorn_get_test_param m1 params param_name =
            some (if nm = c_str req then b else NULL, m1)) ∧
      (unicorn_get_test_param m params param_name = some (NULL, m) →
        ∀ alloc name values count test nb, alloc ≠ NULL → m.heap alloc = none →
          m.heap name = some (Block.chars nb) → c_str nb = c_str req →
          ∃ m2 m3, unicorn_new_test_param m alloc name values count test = some (alloc, m2) ∧
            unicorn_collection_insert m2 params alloc = some m3 ∧
            unicorn_get_test_param m3 params param_name = some (alloc, m3) ∧
            m3.heap alloc = some (Block.param
              { name := name, index := 0, count := count, values := values, test := test })) := by
  have hget : unicorn_get_test_param m params param_name =
      unicorn_get_test_param_loop m param_name items := by
    simp [unicorn_get_test_param, hc, UNICORN_EACH]
  rw [hget]
  refine ⟨m.store params (Block.collection (items ++ [b])),
    by simp [unicorn_collection_insert, hc], by simp [Memory.store], ?_, ?_, ?_⟩
  · intro r hrn hloop
    apply get_after_store_collection _ hc
    rw [loop_append hnull, hloop]
    simp [hrn]
  · intro hloop nm hb
    apply get_after_store_collection _ hc
    rw [loop_append hnull, hloop]
    simp only [if_true]
    rw [loop_cons_of_name [] hr hb]
    by_cases hm : nm = c_str req
    · simp [hm]
    · simp [hm, unicorn_get_test_param_loop]
  · intro hloop alloc name values count test nb halloc hfresh hname hnb
    have hap : alloc ≠ params := by
      intro he
      rw [he, hc] at hfresh
      cases hfresh
    have hkeep : ∀ a blk, m.heap a = some blk →
        (m.store alloc (Block.param
          { name := name, index := 0, count := count, values := values,
            test := test })).heap a = some blk := by
      intro a blk ha
      have hne : a ≠ alloc := by
        intro he
        rw [he, hfresh] at ha
        cases ha
      simp [Memory.store, hne, ha]
    refine ⟨m.store alloc (Block.param
        { name := name, index := 0, count := count, values := values, test := test }),
      (m.store alloc (Block.param
        { name := name, index := 0, count := count, values := values, test := test })).store
        params (Block.collection (items ++ [alloc])),
      by simp [unicorn_new_test_param, initialize_test_param, halloc],
      by simp [unicorn_collection_insert, hkeep _ _ hc], ?_,
      by simp [Memory.store, hap]⟩
    apply get_after_store_collection _ (hkeep _ _ hc)
    have hnull2 : (m.store alloc (Block.param
        { name := name, index := 0, count := count, values := values,
          test := test })).heap NULL = none := by
      simp [Memory.store, Ne.symm halloc, hnull]
    rw [loop_append hnull2,
      loop_agree items (fun a tp h => hkeep a _ h) (fun a s h => hkeep a _ h) hloop]
    simp only [if_true]
    have hbn : binding_name (m.store alloc (Block.param
        { name := name, index := 0, count := count, values := values, test := test }))
        alloc = some (c_str nb) := by
      have hself : (m.store alloc (Block.param
          { name := name, index := 0, count := count, values := values,
            test := test })).heap alloc = some (Block.param
          { name := name, index := 0, count := count, values := values, test := test }) := by
        simp [Memory.store]
      exact binding_name_of_heap hself (hkeep _ _ hname)
    rw [loop_cons_of_name [] (hkeep _ _ hr) hbn]
    simp [hnb]

theorem unicorn_get_test_param_insert_witness :
    (∃ m1, unicorn_collection_insert example_memory 1 3 = some m1 ∧
      unicorn_get_test_param m1 1 9 = some (2, m1)) ∧
    (∃ m1, unicorn_collection_insert example_memory 12 2 = some m1 ∧
      unicorn_get_test_param m1 12 9 = some (2, m1)) ∧
    (∃ m1, unicorn_collection_insert example_memory 12 2 = some m1 ∧
      unicorn_get_test_param m1 12 11 = some (NULL, m1)) ∧
    (∃ m2 m3, unicorn_new_test_param example_memory 20 9 6 3 8 = some (20, m2) ∧
      unicorn_collection_insert m2 12 20 = some m3 ∧
      unicorn_get_test_param m3 12 9 = some (20, m3) ∧
      m3.heap 20 = some (Block.param
        { name := 9, index := 0, count := 3, values := 6, test := 8 })) := by
  refine ⟨?_, ?_, ?_, ?_⟩
  · obtain ⟨m1, hins, _, hfound, _, _⟩ :=
      unicorn_get_test_param_insert example_memory 1 9 3 [2, 3] (ascii "foo") rfl rfl rfl
    exact ⟨m1, hins, hfound 2 (by decide) (by rfl)⟩
  · obtain ⟨m1, hins, _, _, hmiss, _⟩ :=
      unicorn_get_test_param_insert example_memory 12 9 2 [] (ascii "foo") rfl rfl rfl
    exact ⟨m1, hins, by simpa using hmiss (by rfl) (c_str (ascii "foo")) (by rfl)⟩
  · obtain ⟨m1, hins, _, _, hmiss, _⟩ :=
      unicorn_get_test_param_insert example_memory 12 11 2 [] (ascii "bar") rfl rfl rfl
    have h := hmiss (by rfl) (c_str (ascii "foo")) (by rfl)
    have hne : c_str (ascii "foo") ≠ c_str (ascii "bar") := by decide
    rw [if_neg hne] at h
    exact ⟨m1, hins, h⟩
  · obtain ⟨_, _, _, _, _, hnew⟩ :=
      unicorn_get_test_param_insert example_memory 12 9 2 [] (ascii "foo") rfl rfl rfl
    exact hnew (by rfl) 20 9 6 3 8 (ascii "foo") (by decide) rfl rfl rfl

/-! ## Facts about the output assembly state -/

theorem string_copy_some (text : List Nat) :
    ∀ (string : Fin OUTPUT_CAPACITY → Nat) (i : Int), 0 ≤ i →
      i + (text.length : Int) ≤ (OUTPUT_CAPACITY : Int) →
      ∃ string1, string_copy string i text = some string1 := by
  induction text with
  | nil =>
    intro string i _ _
    exact ⟨string, rfl⟩
  | cons c rest ih =>
    intro string i h0 hlen
    simp only [List.length_cons, Nat.cast_add, Nat.cast_one] at hlen
    have hb : 0 ≤ i ∧ i < (OUTPUT_CAPACITY : Int) := ⟨h0, by omega⟩
    simp only [string_copy, string_write, hb, and_self, dite_true]
    exact ih _ (i + 1) (by omega) (by omega)

/-- An append on a state that satisfies the invariant writes inside the array,
keeps the invariant and stops at the capacity. -/
theorem output_state_append_invariant (o : UnicornSessionOutputState) (text : List Nat)
    (h : output_state_invariant o) :
    ∃ o1, output_state_append o text = some o1 ∧ output_state_invariant o1 ∧
      o1.length = min (OUTPUT_CAPACITY : Int) (o.length + (text.length : Int)) := by
  obtain ⟨hi, h0, hcap⟩ := h
  have hw : (text.take ((OUTPUT_CAPACITY : Int) - o.length).toNat).length =
      min ((OUTPUT_CAPACITY : Int) - o.length).toNat text.length := List.length_take _ _
  obtain ⟨string1, hcopy⟩ := string_copy_some
    (text.take ((OUTPUT_CAPACITY : Int) - o.length).toNat) o.string o.index (by omega)
    (by rw [hw]; omega)
  refine ⟨{ index := o.index + (text.take ((OUTPUT_CAPACITY : Int) - o.length).toNat).length,
             length := o.length + (text.take ((OUTPUT_CAPACITY : Int) - o.length).toNat).length,
             string := string1 },
    by simp only [output_state_append, hcopy], ⟨?_, ?_, ?_⟩, ?_⟩
  · simp only [hi]
  · simp only
    omega
  · simp only [hw]
    omega
  · simp only [hw]
    omega

theorem output_state_append_all_invariant (texts : List (List Nat)) :
    ∀ o, output_state_invariant o →
      ∃ o1, output_state_append_all o texts = some o1 ∧ output_state_invariant o1 ∧
        o1.length = min (OUTPUT_CAPACITY : Int) (o.length + (combined_length texts : Int)) := by
  induction texts with
  | nil =>
    intro o h
    refine ⟨o, rfl, h, ?_⟩
    obtain ⟨_, _, hcap⟩ := h
    simp only [combined_length, List.map_nil, List.sum_nil, Nat.cast_zero, add_zero]
    omega
  | cons text rest ih =>
    intro o h
    obtain ⟨o1, ho1, hinv1, hlen1⟩ := output_state_append_invariant o text h
    obtain ⟨o2, ho2, hinv2, hlen2⟩ := ih o1 hinv1
    refine ⟨o2, by simp only [output_state_append_all, ho1, ho2], hinv2, ?_⟩
    obtain ⟨_, h0, _⟩ := h
    simp only [combined_length, List.map_cons, List.sum_cons, Nat.cast_add] at hlen2 ⊢
    omega

theorem output_state_reset_invariant (o : UnicornSessionOutputState) :
    output_state_invariant (output_state_reset o) := by
  simp [output_state_invariant, output_state_reset, OUTPUT_CAPACITY]

theorem output_state_snapshot_length (o : UnicornSessionOutputState) :
    (output_state_snapshot o).length = min o.length.toNat OUTPUT_CAPACITY := by
  simp [output_state_snapshot]

theorem snapshot_eq_range (o : UnicornSessionOutputState) :
    output_state_snapshot o =
      (List.range (min o.length.toNat OUTPUT_CAPACITY)).map (cell o.string) := by
  unfold output_state_snapshot
  apply List.ext_getElem
  · simp
  · intro n h1 h2
    simp only [List.length_take, List.length_map, List.length_finRange, lt_min_iff] at h1
    simp [cell, h1.2]

theorem string_copy_cell (text : List Nat) :
    ∀ (string string1 : Fin OUTPUT_CAPACITY → Nat) (i : Nat),
      string_copy string (i : Int) text = some string1 →
      ∀ n, cell string1 n =
        if i ≤ n ∧ n < i + text.length ∧ n < OUTPUT_CAPACITY then text.getD (n - i) 0
        else cell string n := by
  induction text with
  | nil =>
    intro string string1 i h n
    simp only [string_copy, Option.some.injEq] at h
    subst h
    simp only [List.length_nil, Nat.add_zero]
    rw [if_neg (by omega)]
  | cons c rest ih =>
    intro string string1 i h n
    simp only [string_copy] at h
    split at h
    · cases h
    · rename_i string2 hw
      have h2 := ih string2 string1 (i + 1) (by simpa using h) n
      rw [h2]
      unfold string_write at hw
      split at hw
      · rename_i hb
        simp only [Option.some.injEq] at hw
        subst hw
        by_cases hn : n = i
        · subst hn
          have hlt : n < OUTPUT_CAPACITY := by omega
          simp [cell, hlt]
        · by_cases hr : i + 1 ≤ n ∧ n < i + 1 + rest.length ∧ n < OUTPUT_CAPACITY
          · have hr2 : i ≤ n ∧ n < i + (c :: rest).length ∧ n < OUTPUT_CAPACITY := by
              simp only [List.length_cons]; omega
            rw [if_pos hr, if_pos hr2]
            have : n - i = (n - (i + 1)) + 1 := by omega
            rw [this, List.getD_cons_succ]
          · have hr2 : ¬ (i ≤ n ∧ n < i + (c :: rest).length ∧ n < OUTPUT_CAPACITY) := by
              simp only [List.length_cons]; omega
            rw [if_neg hr, if_neg hr2]
            unfold cell
            by_cases hlt : n < OUTPUT_CAPACITY
            · simp only [hlt, dite_true]
              rw [Function.update_noteq]
              intro he
              apply hn
              have := congrArg Fin.val he
              simp at this
              omega
            · simp [hlt]
      · cases hw

theorem map_getD_range (l : List Nat) : (List.range l.length).map (fun k => l.getD k 0) = l := by
  apply List.ext_getElem
  · simp
  · intro n h1 h2
    simp [List.getElem?_eq_getElem h2]

theorem output_state_append_snapshot (o : UnicornSessionOutputState) (text : List Nat)
    (h : output_state_invariant o) :
    ∃ o1, output_state_append o text = some o1 ∧
      output_state_snapshot o1 =
        output_state_snapshot o ++ text.take (OUTPUT_CAPACITY - o.length.toNat) := by
  obtain ⟨hi, h0, hcap⟩ := h
  have hw : (text.take ((OUTPUT_CAPACITY : Int) - o.length).toNat).length =
      min ((OUTPUT_CAPACITY : Int) - o.length).toNat text.length := List.length_take _ _
  have htn : ((OUTPUT_CAPACITY : Int) - o.length).toNat = OUTPUT_CAPACITY - o.length.toNat := by
    omega
  obtain ⟨string1, hcopy⟩ := string_copy_some
    (text.take ((OUTPUT_CAPACITY : Int) - o.length).toNat) o.string o.index (by omega)
    (by rw [hw]; omega)
  have hidx : o.index = ((o.length.toNat : Nat) : Int) := by omega
  have hcell := string_copy_cell _ o.string string1 o.length.toNat (by rw [← hidx]; exact hcopy)
  refine ⟨{ index := o.index + (text.take ((OUTPUT_CAPACITY : Int) - o.length).toNat).length,
             length := o.length + (text.take ((OUTPUT_CAPACITY : Int) - o.length).toNat).length,
             string := string1 },
    by simp only [output_state_append, hcopy], ?_⟩
  rw [snapshot_eq_range, snapshot_eq_range]
  simp only
  rw [htn] at hw hcell ⊢
  generalize hwr : text.take (OUTPUT_CAPACITY - o.length.toNat) = written at hw hcell ⊢
  have hl1 : min (o.length + (written.length : Int)).toNat OUTPUT_CAPACITY =
      o.length.toNat + written.length := by omega
  have hl0 : min o.length.toNat OUTPUT_CAPACITY = o.length.toNat := by omega
  rw [hl1, hl0, List.range_add, List.map_append, List.map_map]
  congr 1
  · apply List.map_congr_left
    intro n hn
    rw [hcell n, if_neg]
    rw [List.mem_range] at hn
    omega
  · conv_rhs => rw [← map_getD_range written]
    apply List.map_congr_left
    intro k hk
    rw [List.mem_range] at hk
    simp only [Function.comp]
    rw [hcell, if_pos (by omega)]
    congr 1
    omega

theorem output_state_append_all_snapshot (texts : List (List Nat)) :
    ∀ o, output_state_invariant o →
      ∃ o1, output_state_append_all o texts = some o1 ∧
        output_state_snapshot o1 =
          output_state_snapshot o ++ texts.flatten.take (OUTPUT_CAPACITY - o.length.toNat) := by
  induction texts with
  | nil =>
    intro o _
    exact ⟨o, rfl, by simp⟩
  | cons text rest ih =>
    intro o h
    obtain ⟨o1, ho1, hinv1, hlen1⟩ := output_state_append_invariant o text h
    obtain ⟨o1b, ho1b, hsnap1⟩ := output_state_append_snapshot o text h
    rw [ho1] at ho1b
    cases ho1b
    obtain ⟨o2, ho2, hsnap2⟩ := ih o1 hinv1
    refine ⟨o2, by simp only [output_state_append_all, ho1, ho2], ?_⟩
    rw [hsnap2, hsnap1, List.flatten_cons, List.take_append_eq_append_take, List.append_assoc]
    congr 2
    obtain ⟨_, h0, hcap⟩ := h
    congr 1
    omega

/-! ## Properties of the output assembly state -/

/-- C7: after a reset, appending any texts one after the other never writes
outside the 50-character array (every append returns a state, none is an
error), the fields `index` and `length` stay equal and between 0 and 50, the
snapshot is the first 50 characters of the texts put end to end, and its length
is exactly 50 as soon as the combined length of the texts exceeds 50. -/
theorem output_state_never_exceeds_capacity (o : UnicornSessionOutputState)
    (texts : List (List Nat)) :
    ∃ o1, output_state_append_all (output_state_reset o) texts = some o1 ∧
      o1.index = o1.length ∧ 0 ≤ o1.length ∧ o1.length ≤ 50 ∧
      output_state_snapshot o1 = texts.flatten.take OUTPUT_CAPACITY ∧
      (output_state_snapshot o1).length = min (combined_length texts) 50 ∧
      (50 < combined_length texts → (output_state_snapshot o1).length = OUTPUT_CAPACITY ∧
        o1.length = 50) := by
  obtain ⟨o1, ho1, ⟨hi, h0, hcap⟩, hlen⟩ :=
    output_state_append_all_invariant texts _ (output_state_reset_invariant o)
  obtain ⟨o2, ho2, hsnap⟩ :=
    output_state_append_all_snapshot texts _ (output_state_reset_invariant o)
  rw [ho1] at ho2
  cases ho2
  have hreset : (output_state_reset o).length = 0 := rfl
  have hempty : output_state_snapshot (output_state_reset o) = [] := by
    simp [output_state_snapshot, output_state_reset]
  rw [hreset] at hlen
  rw [hreset, hempty, Int.toNat_zero, Nat.sub_zero, List.nil_append] at hsnap
  simp only [OUTPUT_CAPACITY] at hcap hlen
  refine ⟨o1, ho1, hi, h0, hcap, hsnap, ?_, ?_⟩
  · rw [output_state_snapshot_length]
    simp only [OUTPUT_CAPACITY]
    omega
  · intro hlong
    rw [output_state_snapshot_length]
    simp only [OUTPUT_CAPACITY]
    omega

theorem output_state_never_exceeds_capacity_witness :
    ∃ o1, output_state_append_all (output_state_reset unicorn_new_test_session.output_state)
        [ascii "hello ", List.replicate 48 66, ascii "zzz"] = some o1 ∧
      (output_state_snapshot o1).length = 50 ∧ o1.index = 50 ∧ o1.length = 50 ∧
      output_state_snapshot o1 = ascii "hello " ++ List.replicate 44 66 := by
  obtain ⟨o1, ho1, hi, _, _, hsnap, _, hlong⟩ :=
    output_state_never_exceeds_capacity unicorn_new_test_session.output_state
      [ascii "hello ", List.replicate 48 66, ascii "zzz"]
  have h := hlong (by decide)
  exact ⟨o1, ho1, h.1, by rw [hi]; exact h.2, h.2, by rw [hsnap]; decide⟩

/-! ## Facts about the session -/

/-- Recording an outcome always succeeds: it appends one record to `results`,
and the same record to `failures` when the outcome is a failure. -/
theorem session_record_some (s : UnicornTestSession) (t : UnicornTest)
    (param_index : Option Nat) (result : Outcome × Option (List Nat)) :
    ∃ s1 record, session_record s t param_index result = some s1 ∧
      s1.results = s.results ++ [record] ∧
      s1.failures = (if result.1 = Outcome.fail then s.failures ++ [record] else s.failures) ∧
      record.test = t.ref ∧ record.outcome = result.1 ∧ record.message = result.2 ∧
      record.param_index = param_index ∧ record.line.length ≤ OUTPUT_CAPACITY ∧
      s1.start_time = s.start_time ∧ s1.end_time = s.end_time ∧
      output_state_invariant s1.output_state := by
  obtain ⟨o, ho, hinv, _⟩ := output_state_append_all_invariant
    [t.name, outcome_text result.1, failure_text result.1 result.2, index_text param_index]
    _ (output_state_reset_invariant s.output_state)
  refine ⟨{ s with
      results := s.results ++ [outcome_record t param_index result o],
      failures := if result.1 = Outcome.fail then
          s.failures ++ [outcome_record t param_index result o]
        else s.failures,
      output_state := o },
    outcome_record t param_index result o,
    by simp only [session_record, ho], rfl, rfl, rfl, rfl, rfl, rfl, ?_, rfl, rfl, hinv⟩
  simp only [outcome_record, output_state_snapshot_length]
  omega

/-- Recording an outcome keeps the session invariant. -/
theorem session_record_invariant {s s1 : UnicornTestSession} {t : UnicornTest}
    {param_index : Option Nat} {result : Outcome × Option (List Nat)}
    (h : session_record s t param_index result = some s1) (hinv : session_invariant s) :
    session_invariant s1 := by
  obtain ⟨s2, record, hs2, hres, hfail, _, hout, _⟩ :=
    session_record_some s t param_index result
  rw [h] at hs2
  cases hs2
  intro r hr
  rw [hres]
  rw [hfail] at hr
  by_cases hf : result.1 = Outcome.fail
  · simp only [hf, if_true, List.mem_append, List.mem_singleton] at hr
    rcases hr with hr | hr
    · exact ⟨List.mem_append_left _ (hinv r hr).1, (hinv r hr).2⟩
    · subst hr
      refine ⟨by simp, ?_⟩
      rw [hout, hf]
      decide
  · simp only [hf, if_false] at hr
    exact ⟨List.mem_append_left _ (hinv r hr).1, (hinv r hr).2⟩

/-- The loop of a parameterized test keeps the session invariant. -/
theorem run_parameterized_test_loop_invariant (t : UnicornTest) (p : Ptr) :
    ∀ (turns : Nat) (m m1 : Memory) (s s1 : UnicornTestSession),
      run_parameterized_test_loop t p turns m s = some (m1, s1) →
      session_invariant s → session_invariant s1 := by
  intro turns
  induction turns with
  | zero =>
    intro m m1 s s1 h hinv
    simp only [run_parameterized_test_loop, Option.some.injEq, Prod.mk.injEq] at h
    rw [← h.2]
    exact hinv
  | succ turns ih =>
    intro m m1 s s1 h hinv
    simp only [run_parameterized_test_loop] at h
    split at h
    · split at h
      · split at h
        · cases h
        · split at h
          · cases h
          · rename_i hrec
            exact ih _ _ _ _ h (session_record_invariant hrec hinv)
      · simp only [Option.some.injEq, Prod.mk.injEq] at h
        rw [← h.2]
        exact hinv
    · cases h

theorem run_parameterized_test_invariant {m m1 : Memory} {s s1 : UnicornTestSession}
    {t : UnicornTest} {param_item : Ptr}
    (h : unicorn_test_session_run_parameterized_test m s t param_item = some (m1, s1))
    (hinv : session_invariant s) : session_invariant s1 := by
  unfold unicorn_test_session_run_parameterized_test at h
  split at h
  · exact run_parameterized_test_loop_invariant _ _ _ _ _ _ _ h hinv
  · cases h

theorem run_test_group_invariant (g : UnicornTestGroup) :
    ∀ (m m1 : Memory) (s s1 : UnicornTestSession),
      unicorn_test_session_run_test_group m s g = some (m1, s1) →
      session_invariant s → session_invariant s1 := by
  induction g with
  | nil =>
    intro m m1 s s1 h hinv
    simp only [unicorn_test_session_run_test_group, Option.some.injEq, Prod.mk.injEq] at h
    rw [← h.2]
    exact hinv
  | cons member rest ih =>
    intro m m1 s s1 h hinv
    cases member with
    | plain t =>
      simp only [unicorn_test_session_run_test_group] at h
      split at h
      · cases h
      · rename_i s2 hrun
        exact ih _ _ _ _ h (session_record_invariant hrun hinv)
    | parameterized t param_item =>
      simp only [unicorn_test_session_run_test_group] at h
      split at h
      · cases h
      · rename_i m2 s2 hrun
        exact ih _ _ _ _ h (run_parameterized_test_invariant hrun hinv)

theorem session_call_invariant {m m1 : Memory} {s s1 : UnicornTestSession}
    {call : SessionCall} (h : session_call m s call = some (m1, s1))
    (hinv : session_invariant s) : session_invariant s1 := by
  cases call with
  | start now =>
    simp only [session_call, Option.some.injEq, Prod.mk.injEq] at h
    rw [← h.2]
    exact hinv
  | run_test t =>
    simp only [session_call] at h
    split at h
    · cases h
    · rename_i s2 hrun
      simp only [Option.some.injEq, Prod.mk.injEq] at h
      rw [← h.2]
      exact session_record_invariant hrun hinv
  | run_parameterized_test t param_item =>
    exact run_parameterized_test_invariant h hinv
  | run_test_group g =>
    exact run_test_group_invariant g _ _ _ _ h hinv
  | finish now =>
    simp only [session_call, Option.some.injEq, Prod.mk.injEq] at h
    rw [← h.2]
    exact hinv

theorem session_calls_invariant (calls : List SessionCall) :
    ∀ (m m1 : Memory) (s s1 : UnicornTestSession),
      session_calls m s calls = some (m1, s1) →
      session_invariant s → session_invariant s1 := by
  induction calls with
  | nil =>
    intro m m1 s s1 h hinv
    simp only [session_calls, Option.some.injEq, Prod.mk.injEq] at h
    rw [← h.2]
    exact hinv
  | cons call rest ih =>
    intro m m1 s s1 h hinv
    simp only [session_calls] at h
    split at h
    · cases h
    · rename_i m2 s2 hcall
      exact ih _ _ _ _ h (session_call_invariant hcall hinv)

/-! ## Properties of the session -/

/-- C6: in every state of a session reached from a new session by calls of start,
run_test, run_parameterized_test, run_test_group and end, every record of
`failures` is also in `results`, and no record of `failures` is a pass. -/
theorem session_failures_in_results (m m1 : Memory) (s1 : UnicornTestSession)
    (calls : List SessionCall)
    (h : session_calls m unicorn_new_test_session calls = some (m1, s1)) :
    ∀ r ∈ s1.failures, r ∈ s1.results ∧ r.outcome ≠ Outcome.pass := by
  apply session_calls_invariant calls m m1 unicorn_new_test_session s1 h
  intro r hr
  cases hr

theorem session_failures_in_results_witness :
    ∃ m1 s1, session_calls example_memory unicorn_new_test_session example_calls =
        some (m1, s1) ∧
      s1.results.map (fun r => (r.outcome, r.param_index)) =
        [(Outcome.fail, none), (Outcome.pass, some 0), (Outcome.fail, some 1),
         (Outcome.pass, some 2), (Outcome.fail, none)] ∧
      s1.failures.map (fun r => (r.outcome, r.param_index)) =
        [(Outcome.fail, none), (Outcome.fail, some 1), (Outcome.fail, none)] ∧
      ∀ r ∈ s1.failures, r ∈ s1.results ∧ r.outcome ≠ Outcome.pass := by
  have hsome : (session_calls example_memory unicorn_new_test_session
      example_calls).isSome = true := by rfl
  obtain ⟨⟨m1, s1⟩, hrun⟩ := Option.isSome_iff_exists.mp hsome
  have hres : (session_calls example_memory unicorn_new_test_session example_calls).map
      (fun x => x.2.results.map (fun r => (r.outcome, r.param_index))) =
      some [(Outcome.fail, none), (Outcome.pass, some 0), (Outcome.fail, some 1),
        (Outcome.pass, some 2), (Outcome.fail, none)] := by rfl
  have hfail : (session_calls example_memory unicorn_new_test_session example_calls).map
      (fun x => x.2.failures.map (fun r => (r.outcome, r.param_index))) =
      some [(Outcome.fail, none), (Outcome.fail, some 1), (Outcome.fail, none)] := by rfl
  rw [hrun] at hres hfail
  simp only [Option.map_some', Option.some.injEq] at hres hfail
  exact ⟨m1, s1, hrun, hres, hfail,
    session_failures_in_results example_memory m1 s1 example_calls hrun⟩

end Unicorn
